import Mathlib

/-!
Verification development for the Exclave game engine
(hex coordinate math, map generation, territory splitting, game rules).

The TypeScript source is embedded shallowly:
* JavaScript numbers that only ever hold integers become `Int`
  (unit counts, cell ids, coordinates, counters);
* the seeded pseudo-random generator becomes an explicit stream of
  rationals `Nat -> Rat` together with a cursor (`Rng`); every call
  `this.rng()` draws the next element of the stream;
* real-valued intermediate quantities (blob noise, edge factors) are
  exact rationals, and comparisons involving `Math.sqrt` are rewritten
  as equivalent comparisons of squares;
* the unbounded `while` loops (breadth-first flood fill, random unit
  distribution) take an explicit fuel parameter;
* `splitTerritory`, which throws on insufficient land, returns
  `Except String`.
-/

namespace Exclave

/-- Player identifiers: the source type is the union 0 | 1 | 2. -/
abbrev PlayerId := Fin 3

/-- Axial hex coordinate, as in hex.ts (`HexCoord` / class `Hex`). -/
structure Hex where
  q : Int
  r : Int
deriving DecidableEq, Repr

/-- The six axial direction offsets (`HEX_DIRECTIONS` in hex.ts). -/
def hexDirections : List Hex :=
  [⟨1, 0⟩, ⟨1, -1⟩, ⟨0, -1⟩, ⟨-1, 0⟩, ⟨-1, 1⟩, ⟨0, 1⟩]

/-- `Hex.neighbors` / `getNeighbors` from hex.ts. -/
def getNeighbors (h : Hex) : List Hex :=
  hexDirections.map (fun d => ⟨h.q + d.q, h.r + d.r⟩)

/-- `Hex.distance` from hex.ts: `(|dq| + |dq+dr| + |dr|) / 2`.
The sum is always even, so integer division is exact. -/
def hexDistance (a b : Hex) : Int :=
  let dq := a.q - b.q
  let dr := a.r - b.r
  (dq.natAbs + (dq + dr).natAbs + dr.natAbs : Int) / 2

/-- `areAdjacent` from hex.ts. -/
def areAdjacent (a b : Hex) : Bool :=
  hexDistance a b == 1

/-- Mathematical adjacency: `b` is one of the six neighbours of `a`. -/
def Adj (a b : Hex) : Prop := b ∈ getNeighbors a

instance : DecidablePred (fun p : Hex × Hex => Adj p.1 p.2) :=
  fun p => inferInstanceAs (Decidable (p.2 ∈ getNeighbors p.1))

instance (a b : Hex) : Decidable (Adj a b) :=
  inferInstanceAs (Decidable (b ∈ getNeighbors a))

/-- One step inside a hex set: both endpoints belong to the list and are adjacent. -/
def StepIn (S : List Hex) (a b : Hex) : Prop :=
  a ∈ S ∧ b ∈ S ∧ Adj a b

/-- Connectivity within a hex set: reflexive-transitive closure of `StepIn`. -/
def ReachableIn (S : List Hex) : Hex → Hex → Prop :=
  Relation.ReflTransGen (StepIn S)

/-- A hex list forms exactly one connected component: it is nonempty and
any two of its members are joined by a path inside it. -/
def formsOneComponent (S : List Hex) : Prop :=
  S ≠ [] ∧ ∀ a ∈ S, ∀ b ∈ S, ReachableIn S a b

/-- The seeded random generator, abstracted as a rational stream plus cursor.
The source's sine-based generator produces one number in [0,1) per call. -/
structure Rng where
  stream : Nat → Rat
  pos : Nat

/-- Draw the next pseudo-random value. -/
def Rng.next (r : Rng) : Rat × Rng :=
  (r.stream r.pos, ⟨r.stream, r.pos + 1⟩)

/-- Turn phase (types.ts `GameState.phase`). -/
inductive Phase where
  | reinforce
  | attack
  | move
deriving DecidableEq, Repr

/-- A board cell (types.ts `Cell`). -/
structure Cell where
  id : Int
  q : Int
  r : Int
  owner : PlayerId
  units : Int
  land : Bool
deriving DecidableEq, Repr

/-- The cell's hex coordinate. -/
def Cell.hex (c : Cell) : Hex := ⟨c.q, c.r⟩

/-- The game state (types.ts `GameState`).  The fields `lastDiceRoll`,
`pendingCombatResult`, `moveSource` and `moveDestination` are never read nor
written by the rules engine and are omitted. -/
structure GameState where
  cells : List Cell
  players : List PlayerId
  current : PlayerId
  phase : Phase
  reinfLeft : Int
  actionsLeft : Int
  scores : PlayerId → Int
  round : Int
  selected : Option Int
  winGoal : Int
deriving DecidableEq

/-- A dice roll record (types.ts `DiceRoll`). -/
structure DiceRoll where
  attacker : List Int
  defender : List Int
  attackerTotal : Int
  defenderTotal : Int
  attackerWins : Bool
  attackerId : PlayerId
  defenderId : PlayerId
deriving DecidableEq, Repr

/-- Generic flood-fill partition into connectivity components
(`getConnectedComponents` in map.ts).  The inner `while` loop carries fuel;
`7 * hexes.length + 1` steps always drain the queue (each step either pops
a queue entry alone or pops one and marks up to six fresh hexes visited). -/
def gccBfs (hexSet : List Hex) : Nat → List Hex → List Hex → List Hex →
    List Hex × List Hex
  | 0, _, visited, component => (component, visited)
  | _ + 1, [], visited, component => (component, visited)
  | fuel + 1, current :: rest, visited, component =>
    let fresh := (getNeighbors current).filter
      (fun n => !(visited.contains n) && hexSet.contains n)
    gccBfs hexSet fuel (rest ++ fresh) (visited ++ fresh) (component ++ [current])

/-- `getConnectedComponents(hexes, ownedBy)` from map.ts. -/
def getConnectedComponents (hexes : List Hex) (ownedBy : Hex → Bool) :
    List (List Hex) :=
  let hexSet := hexes.filter ownedBy
  let step := fun (acc : List Hex × List (List Hex)) (h : Hex) =>
    let (visited, components) := acc
    if !(ownedBy h) then acc
    else if visited.contains h then acc
    else
      let (component, visited') :=
        gccBfs hexSet (7 * hexes.length + 1) [h] (visited ++ [h]) []
      if component.length > 0 then (visited', components ++ [component])
      else (visited', components)
  (hexes.foldl step ([], [])).2

/-- `reduce` over a nonempty list picking the longest entry, keeping the
earlier one on ties (the `components.reduce` calls in rules.ts/split.ts). -/
def longestComponent (c : List Hex) (cs : List (List Hex)) : List Hex :=
  cs.foldl (fun largest cur => if cur.length > largest.length then cur else largest) c

/-- `GameEngine.detectExclaves`.  The source removes the largest component by
object identity; components produced by the flood fill are pairwise disjoint
and nonempty, so structural inequality is equivalent. -/
def detectExclaves (cells : List Cell) (playerId : PlayerId) : List (List Hex) :=
  let playerCells := cells.filter (fun c => c.land && c.owner == playerId)
  let playerHexes := playerCells.map Cell.hex
  if playerHexes.length = 0 then []
  else
    let components := getConnectedComponents playerHexes
      (fun hex => playerHexes.any (fun ph => ph.q == hex.q && ph.r == hex.r))
    if components.length ≤ 1 then []
    else
      match components with
      | [] => []
      | c :: cs =>
        let largest := longestComponent c cs
        components.filter (fun component => component ≠ largest)

/-- `GameEngine.updateExclaveScores`: recompute every listed player's score. -/
def updateExclaveScores (players : List PlayerId) (cells : List Cell)
    (scores : PlayerId → Int) : PlayerId → Int :=
  players.foldl
    (fun sc p => Function.update sc p ((detectExclaves cells p).length : Int)) scores

/-- `GameEngine.getPlayerTerritoryCount`. -/
def getPlayerTerritoryCount (s : GameState) (playerId : PlayerId) : Nat :=
  (s.cells.filter (fun c => c.land && c.owner == playerId)).length

/-- `GameEngine.canReinforce`. -/
def canReinforce (s : GameState) (cellId : Int) : Bool :=
  if s.phase ≠ Phase.reinforce ∨ s.reinfLeft ≤ 0 then false
  else
    match s.cells.find? (fun c => c.id == cellId) with
    | none => false
    | some cell =>
      if !cell.land ∨ cell.owner ≠ s.current then false
      else cell.units < 8

/-- `GameEngine.reinforce`. -/
def reinforce (s : GameState) (cellId : Int) : GameState :=
  if canReinforce s cellId then
    let cells := s.cells.map (fun cell =>
      if cell.id == cellId then { cell with units := min 8 (cell.units + 1) }
      else cell)
    let reinfLeft := s.reinfLeft - 1
    let phase := if reinfLeft ≤ 0 then Phase.attack else s.phase
    { s with cells := cells, reinfLeft := reinfLeft, phase := phase }
  else s

/-- `GameEngine.canAttack`. -/
def canAttack (s : GameState) (fromId toId : Int) : Bool :=
  if s.phase ≠ Phase.attack ∨ s.actionsLeft ≤ 0 then false
  else
    match s.cells.find? (fun c => c.id == fromId),
          s.cells.find? (fun c => c.id == toId) with
    | some fromCell, some toCell =>
      if !fromCell.land ∨ !toCell.land then false
      else if fromCell.owner ≠ s.current ∨ toCell.owner = s.current then false
      else if fromCell.units < 1 then false
      else areAdjacent ⟨fromCell.q, fromCell.r⟩ ⟨toCell.q, toCell.r⟩
    | _, _ => false

/-- `GameEngine.createEmptyDiceRoll`. -/
def createEmptyDiceRoll : DiceRoll :=
  { attacker := [], defender := [], attackerTotal := 0, defenderTotal := 0,
    attackerWins := false, attackerId := 0, defenderId := 0 }

/-- `GameEngine.rollDice`: one d6 per attacking unit, then one per defending
unit, drawn from the stream; attacker wins strictly. -/
def rollDice (stream : Nat → Rat) (attackerCount defenderCount : Int)
    (attackerId defenderId : PlayerId) : DiceRoll :=
  let attackerRolls := (List.range attackerCount.toNat).map
    (fun i => ⌊stream i * 6⌋ + 1)
  let defenderRolls := (List.range defenderCount.toNat).map
    (fun i => ⌊stream (attackerCount.toNat + i) * 6⌋ + 1)
  let attackerTotal := attackerRolls.foldl (· + ·) 0
  let defenderTotal := defenderRolls.foldl (· + ·) 0
  { attacker := attackerRolls, defender := defenderRolls,
    attackerTotal := attackerTotal, defenderTotal := defenderTotal,
    attackerWins := attackerTotal > defenderTotal,
    attackerId := attackerId, defenderId := defenderId }

/-- Result of `GameEngine.attack`: the new state and the dice roll. -/
structure AttackResult where
  state : GameState
  dice : DiceRoll
deriving DecidableEq

/-- `GameEngine.attack`.  `stream` is the generator's remaining stream at the
moment of the call. -/
def attack (stream : Nat → Rat) (s : GameState) (fromId toId : Int) :
    AttackResult :=
  if canAttack s fromId toId then
    match s.cells.find? (fun c => c.id == fromId),
          s.cells.find? (fun c => c.id == toId) with
    | some fromCell, some toCell =>
      if toCell.units = 0 then
        -- auto-capture path: no dice, no action consumed, no score update
        let unitsToMove := if fromCell.units ≥ 2 then fromCell.units - 1
                           else fromCell.units
        let unitsRemaining : Int := if fromCell.units ≥ 2 then 1 else 0
        let cells := s.cells.map (fun cell =>
          if cell.id == fromId then { cell with units := unitsRemaining }
          else if cell.id == toId then
            { cell with owner := s.current, units := unitsToMove }
          else cell)
        { state := { s with cells := cells }, dice := createEmptyDiceRoll }
      else
        let dice := rollDice stream fromCell.units toCell.units s.current
          toCell.owner
        let cells :=
          if dice.attackerWins then
            let unitsToMove := if fromCell.units ≥ 2 then fromCell.units - 1
                               else fromCell.units
            let unitsRemaining : Int := if fromCell.units ≥ 2 then 1 else 0
            s.cells.map (fun cell =>
              if cell.id == fromId then { cell with units := unitsRemaining }
              else if cell.id == toId then
                { cell with owner := s.current, units := unitsToMove }
              else cell)
          else
            s.cells.map (fun cell =>
              if cell.id == fromId then { cell with owner := toCell.owner }
              else if cell.id == toId && toCell.units > 0 then
                { cell with units := min 8 (toCell.units + 1) }
              else cell)
        let withCells :=
          { s with cells := cells, actionsLeft := s.actionsLeft - 1 }
        let state := { withCells with
          scores := updateExclaveScores withCells.players withCells.cells
            withCells.scores }
        { state := state, dice := dice }
    | _, _ => { state := s, dice := createEmptyDiceRoll }
  else { state := s, dice := createEmptyDiceRoll }

/-- `GameEngine.canMove`. -/
def canMove (s : GameState) (fromId toId : Int) : Bool :=
  if s.phase ≠ Phase.attack ∨ s.actionsLeft ≤ 0 then false
  else
    match s.cells.find? (fun c => c.id == fromId),
          s.cells.find? (fun c => c.id == toId) with
    | some fromCell, some toCell =>
      if !fromCell.land ∨ !toCell.land then false
      else if fromCell.owner ≠ s.current ∨ toCell.owner ≠ s.current then false
      else decide (fromCell.units > 1)
    | _, _ => false

/-- `GameEngine.move`. -/
def move (s : GameState) (fromId toId : Int) (unitCount : Int) : GameState :=
  if canMove s fromId toId then
    match s.cells.find? (fun c => c.id == fromId),
          s.cells.find? (fun c => c.id == toId) with
    | some fromCell, some toCell =>
      let maxMove := fromCell.units - 1
      let actualMove := min unitCount maxMove
      let maxDestination := 8 - toCell.units
      let finalMove := min actualMove maxDestination
      if finalMove ≤ 0 then s
      else
        let cells := s.cells.map (fun cell =>
          if cell.id == fromId then { cell with units := cell.units - finalMove }
          else if cell.id == toId then
            { cell with units := cell.units + finalMove }
          else cell)
        { s with cells := cells, actionsLeft := s.actionsLeft - 1 }
    | _, _ => s
  else s

/-- `GameEngine.canEndTurn`. -/
def canEndTurn (s : GameState) : Bool :=
  s.reinfLeft == 0 || s.actionsLeft == 0

/-- JavaScript `Array.prototype.indexOf`: first index, or -1 when absent. -/
def jsIndexOfAux (x : PlayerId) : List PlayerId → Int → Int
  | [], _ => -1
  | a :: as, k => if a = x then k else jsIndexOfAux x as (k + 1)

/-- First index of `x` in `l`, or -1 (JS `indexOf`). -/
def jsIndexOf (l : List PlayerId) (x : PlayerId) : Int :=
  jsIndexOfAux x l 0

/-- `GameEngine.endTurn`. -/
def endTurn (s : GameState) : GameState :=
  if canEndTurn s then
    let len : Int := s.players.length
    let nextPlayerIndex := (jsIndexOf s.players s.current + 1) % len
    let nextPlayer := s.players.getD nextPlayerIndex.toNat 0
    let round := if s.players.getD 0 0 = nextPlayer then s.round + 1 else s.round
    let nextPlayerHexCount := getPlayerTerritoryCount s nextPlayer
    let reinforcements := max 1 ((nextPlayerHexCount : Int) / 6)
    { s with
      current := nextPlayer
      phase := Phase.reinforce
      reinfLeft := reinforcements
      actionsLeft := 5
      selected := none
      round := round }
  else s

/-! ### Territory splitter (split.ts, class TerritorySplitter) -/

/-- Split configuration (split.ts `SplitConfig`). -/
structure SplitConfig where
  playerCount : Nat
  minTerritorySize : Int

/-- Ordered pairs `(l[i], l[j])` with `i < j`, in the source's scan order. -/
def orderedPairs : List Hex → List (Hex × Hex)
  | [] => []
  | x :: xs => xs.map (fun y => (x, y)) ++ orderedPairs xs

/-- Ordered triples `(l[i], l[j], l[k])` with `i < j < k`, in scan order. -/
def orderedTriples : List Hex → List (Hex × Hex × Hex)
  | [] => []
  | x :: xs => (orderedPairs xs).map (fun p => (x, p.1, p.2)) ++ orderedTriples xs

/-- `TerritorySplitter.findFarthestPair`: first pair realising the maximum
distance (strict improvement while scanning). -/
def findFarthestPair (hexes : List Hex) : List Hex :=
  let best := (orderedPairs hexes).foldl
    (fun (acc : Int × List Hex) p =>
      let d := hexDistance p.1 p.2
      if d > acc.1 then (d, [p.1, p.2]) else acc)
    (-1, [])
  best.2

/-- `TerritorySplitter.findFarthestTriple`: first triple maximising the
minimum pairwise distance. -/
def findFarthestTriple (hexes : List Hex) : List Hex :=
  let best := (orderedTriples hexes).foldl
    (fun (acc : Int × List Hex) t =>
      let d12 := hexDistance t.1 t.2.1
      let d13 := hexDistance t.1 t.2.2
      let d23 := hexDistance t.2.1 t.2.2
      let minDistance := min (min d12 d13) d23
      if minDistance > acc.1 then (minDistance, [t.1, t.2.1, t.2.2]) else acc)
    (-1, [])
  best.2

/-- `TerritorySplitter.generateSeedCandidates`. -/
def generateSeedCandidates (hexes : List Hex) (playerCount : Nat) : List Hex :=
  if playerCount = 2 then findFarthestPair hexes else findFarthestTriple hexes

/-- `TerritorySplitter.evaluateSeedPlacement`:
`2 * min pairwise distance + sum of pairwise distances`. -/
def evaluateSeedPlacement (seeds : List Hex) : Int :=
  if seeds.length < 2 then 0
  else
    let acc := (orderedPairs seeds).foldl
      (fun (acc : Int × Option Int) p =>
        let d := hexDistance p.1 p.2
        (acc.1 + d, some (match acc.2 with | none => d | some m => min m d)))
      (0, none)
    (acc.2.getD 0) * 2 + acc.1

/-- `TerritorySplitter.findOptimalSeeds`: 50 candidate rounds, keeping the
first strictly best score.  Candidate generation draws no randomness, so the
rounds are identical; the loop is kept as in the source. -/
def findOptimalSeeds (hexes : List Hex) (playerCount : Nat) : List Hex :=
  let best := (List.range 50).foldl
    (fun (acc : Int × List Hex) _ =>
      let seeds := generateSeedCandidates hexes playerCount
      let score := evaluateSeedPlacement seeds
      if score > acc.1 then (score, seeds) else acc)
    (-1, [])
  best.2

/-- `TerritorySplitter.voronoiSplit`: assign each hex to the nearest seed,
breaking exact ties with a coin flip from the generator.  Territories are a
list indexed by player number (the source's insertion-ordered `Map`). -/
def voronoiSplit (hexes seeds : List Hex) (rng : Rng) :
    List (List Hex) × Rng :=
  let init : List (List Hex) := seeds.map (fun _ => [])
  hexes.foldl
    (fun (acc : List (List Hex) × Rng) hex =>
      let (territories, rng0) := acc
      let pick := (List.range seeds.length).foldl
        (fun (st : Nat × Option Int × Rng) i =>
          let (closest, minDistance, rng1) := st
          let d := hexDistance (seeds.getD i ⟨0, 0⟩) hex
          match minDistance with
          | none => (i, some d, rng1)
          | some m =>
            if d < m then (i, some d, rng1)
            else if d = m then
              let (v, rng2) := rng1.next
              if v < 1/2 then (i, some d, rng2) else (closest, some m, rng2)
            else (closest, some m, rng1))
        (0, none, rng0)
      let (closest, _, rng3) := pick
      (territories.set closest (territories.getD closest [] ++ [hex]), rng3))
    (init, rng)

/-- `TerritorySplitter.findBorderHexes`: hexes of the territory adjacent to a
hex of another territory. -/
def findBorderHexes (territory : List Hex) (allTerritories : List (List Hex)) :
    List Hex :=
  let allHexes := allTerritories.flatten
  territory.filter (fun hex =>
    (getNeighbors hex).any
      (fun n => allHexes.contains n && !(territory.contains n)))

/-- `TerritorySplitter.findBestNewOwner`: a uniformly picked under-target
adjacent territory, if any; no draw is consumed when no candidate exists. -/
def findBestNewOwner (hex : Hex) (territories : List (List Hex))
    (targetSize : Int) (rng : Rng) : Option Nat × Rng :=
  let candidates := (List.range territories.length).filter (fun i =>
    let territory := territories.getD i []
    decide ((territory.length : Int) < targetSize) &&
      (getNeighbors hex).any (fun n => territory.contains n))
  if candidates.length = 0 then (none, rng)
  else
    let (v, rng1) := rng.next
    (some (candidates.getD (⌊v * candidates.length⌋).toNat 0), rng1)

/-- `TerritorySplitter.moveHexBetweenTerritories`: move the first occurrence
of `hex` from one territory to the end of another (no-op when absent). -/
def moveHexBetweenTerritories (hex : Hex) (fromIdx toIdx : Nat)
    (territories : List (List Hex)) : List (List Hex) :=
  let fromTerritory := territories.getD fromIdx []
  if fromTerritory.contains hex then
    let t1 := territories.set fromIdx (fromTerritory.erase hex)
    t1.set toIdx (t1.getD toIdx [] ++ [hex])
  else territories

/-- One pass of the balancing loop in `TerritorySplitter.balanceTerritories`:
every over-target territory offers its border hexes (computed at the start of
its turn) to under-target adjacent territories. -/
def balancePass (targetSize : Int) (territories : List (List Hex)) (rng : Rng) :
    List (List Hex) × Rng × Bool :=
  (List.range territories.length).foldl
    (fun (st : List (List Hex) × Rng × Bool) pid =>
      let (terrs, rng0, changed) := st
      let territory := terrs.getD pid []
      if (territory.length : Int) > targetSize then
        let excess := (territory.length : Int) - targetSize
        let borderHexes := findBorderHexes territory terrs
        (List.range (min excess (borderHexes.length : Int)).toNat).foldl
          (fun (st2 : List (List Hex) × Rng × Bool) i =>
            let (terrs2, rng2, changed2) := st2
            let hexToMove := borderHexes.getD i ⟨0, 0⟩
            let (newOwner, rng3) := findBestNewOwner hexToMove terrs2 targetSize rng2
            match newOwner with
            | some o =>
              if o ≠ pid then
                (moveHexBetweenTerritories hexToMove pid o terrs2, rng3, true)
              else (terrs2, rng3, changed2)
            | none => (terrs2, rng3, changed2))
          (terrs, rng0, changed)
      else st)
    (territories, rng, false)

/-- The `for (iteration...)` loop of `balanceTerritories`: up to the given
number of passes, stopping early when a pass makes no donation. -/
def balanceLoop (targetSize : Int) :
    Nat → List (List Hex) × Rng → List (List Hex) × Rng
  | 0, st => st
  | n + 1, (territories, rng) =>
    let (territories1, rng1, changed) := balancePass targetSize territories rng
    if changed then balanceLoop targetSize n (territories1, rng1)
    else (territories1, rng1)

/-- `TerritorySplitter.balanceTerritories`. -/
def balanceTerritories (territories : List (List Hex)) (config : SplitConfig)
    (rng : Rng) : List (List Hex) × Rng :=
  let total := territories.foldl (fun sum t => sum + t.length) (0 : Nat)
  let targetSize : Int := (total : Int) / (config.playerCount : Int)
  balanceLoop targetSize 10 (territories, rng)

/-- `TerritorySplitter.findNearestTerritoryOwner`: owner of the strictly
nearest hex over all listed territories, scanning in order. -/
def findNearestTerritoryOwner (hex : Hex) (territories : List (List Hex)) :
    Option Nat :=
  let scan := (List.range territories.length).foldl
    (fun (acc : Option Nat × Option Int) pid =>
      (territories.getD pid []).foldl
        (fun (acc2 : Option Nat × Option Int) territoryHex =>
          let d := hexDistance hex territoryHex
          match acc2.2 with
          | none => (some pid, some d)
          | some m => if d < m then (some pid, some d) else acc2)
        acc)
    (none, none)
  scan.1

/-- `TerritorySplitter.enforceContiguity`: keep each territory's largest
component; append every stray hex to the nearest territory among those built
so far (which includes the current player's kept component). -/
def enforceContiguity (territories : List (List Hex)) : List (List Hex) :=
  territories.foldl
    (fun (contiguousT : List (List Hex)) territory =>
      let components := getConnectedComponents territory (fun _ => true)
      match components with
      | [] => contiguousT ++ [[]]
      | c :: cs =>
        let largestComponent := longestComponent c cs
        let strays := territory.filter (fun hex =>
          !(largestComponent.any (fun k => k.q == hex.q && k.r == hex.r)))
        strays.foldl
          (fun (acc : List (List Hex)) stray =>
            match findNearestTerritoryOwner stray acc with
            | some bestOwner => acc.set bestOwner (acc.getD bestOwner [] ++ [stray])
            | none => acc)
          (contiguousT ++ [largestComponent]))
    []

/-- Replace the first element satisfying the predicate (the source's pattern
`const cell = result.find(...); if (cell) mutate(cell)`). -/
def updateFirst (p : Cell → Bool) (f : Cell → Cell) : List Cell → List Cell
  | [] => []
  | x :: xs => if p x then f x :: xs else x :: updateFirst p f xs

/-- Territory index as a `PlayerId` (the source's Map keys are 0, 1, 2). -/
def natToPlayer (n : Nat) : PlayerId := ⟨n % 3, Nat.mod_lt n (by omega)⟩

/-- The random unit-distribution `while` loop inside
`TerritorySplitter.assignPlayersToTerritories`, with fuel for the unbounded
loop: pick a uniform hex of the territory, increment its cell when under the
8-unit cap, until the budget is spent. -/
def distributeUnits (territory : List Hex) :
    Nat → List Cell → Rng → Int → List Cell × Rng
  | 0, cells, rng, _ => (cells, rng)
  | fuel + 1, cells, rng, remaining =>
    if remaining ≤ 0 then (cells, rng)
    else
      let (v, rng1) := rng.next
      let randomHex := territory.getD (⌊v * territory.length⌋).toNat ⟨0, 0⟩
      match cells.find? (fun c => c.q == randomHex.q && c.r == randomHex.r) with
      | some cell =>
        if cell.units < 8 then
          distributeUnits territory fuel
            (updateFirst (fun c => c.q == randomHex.q && c.r == randomHex.r)
              (fun c => { c with units := c.units + 1 }) cells)
            rng1 (remaining - 1)
        else distributeUnits territory fuel cells rng1 remaining
      | none => distributeUnits territory fuel cells rng1 remaining

/-- `TerritorySplitter.assignPlayersToTerritories`: per territory, set
ownership and zero units, randomly distribute `4 * size` units under the
8-cap, then raise any zero-unit hex to 1. -/
def assignPlayersToTerritories (cells : List Cell)
    (territories : List (List Hex)) (rng : Rng) (fuel : Nat) :
    List Cell × Rng :=
  (List.range territories.length).foldl
    (fun (acc : List Cell × Rng) pid =>
      let (cells0, rng0) := acc
      let territory := territories.getD pid []
      let totalUnits : Int := (territory.length : Int) * 4
      let cells1 := territory.foldl
        (fun cs hex =>
          updateFirst (fun c => c.q == hex.q && c.r == hex.r)
            (fun c => { c with owner := natToPlayer pid, units := 0 }) cs)
        cells0
      let (cells2, rng2) := distributeUnits territory fuel cells1 rng0 totalUnits
      let cells3 := territory.foldl
        (fun cs hex =>
          updateFirst (fun c => c.q == hex.q && c.r == hex.r)
            (fun c => if c.units = 0 then { c with units := 1 } else c) cs)
        cells2
      (cells3, rng2))
    (cells, rng)

/-- `TerritorySplitter.splitTerritory`.  The source throws on insufficient
land; here that is an `Except.error`. -/
def splitTerritory (cells : List Cell) (config : SplitConfig) (rng : Rng)
    (fuel : Nat) : Except String (List Cell) :=
  let landCells := cells.filter (fun c => c.land)
  let landHexes := landCells.map Cell.hex
  if (landHexes.length : Int) < config.minTerritorySize * (config.playerCount : Int) then
    Except.error "Not enough land for all players"
  else
    let seeds := findOptimalSeeds landHexes config.playerCount
    let (territories, rng1) := voronoiSplit landHexes seeds rng
    let (balanced, rng2) := balanceTerritories territories config rng1
    let contiguousT := enforceContiguity balanced
    Except.ok (assignPlayersToTerritories cells contiguousT rng2 fuel).1

/-! ### Map generator (split.ts, class MapGenerator) -/

/-- Map generation configuration (`MapConfig`).  The source declares a
`landRatio` field but never reads it; it is omitted here. -/
structure MapConfig where
  width : Int
  height : Int
  smoothingPasses : Int

/-- Inclusive integer range `[lo..hi]` (empty when `hi < lo`), matching the
source's `for (let x = lo; x <= hi; x++)`. -/
def intRange (lo hi : Int) : List Int :=
  (List.range (hi + 1 - lo).toNat).map (fun k => lo + k)

/-- Insertion into the source's `Map<string, boolean>` of land keys: keep
insertion order, never duplicate. -/
def landInsert (landMap : List Hex) (h : Hex) : List Hex :=
  if landMap.contains h then landMap else landMap ++ [h]

/-- One blob of `MapGenerator.generateLandmass`: draw a centre and radius,
then for each hex of the bounding box within (Euclidean) distance `R` of the
centre draw noise and keep the hex when
`1 - dist/R + 0.4 * noise > 0.3`.  With `u = (0.7 + 0.4 * noise) * R` and
`d2` the squared distance, that condition is exactly `0 < u ∧ d2 < u ^ 2`
(both sides of `u > dist` are compared via their squares; for `R = 0` the
source's `NaN` comparison is false, as is `0 < u`). -/
def generateBlob (config : MapConfig) (st : List Hex × Rng) : List Hex × Rng :=
  let (landMap, rng) := st
  let (v1, rngA) := rng.next
  let blobCenterQ := 0 + ⌊(v1 - 1/2) * (config.width : Rat) * (8/10)⌋
  let (v2, rngB) := rngA.next
  let blobCenterR := 0 + ⌊(v2 - 1/2) * (config.height : Rat) * (8/10)⌋
  let (v3, rngC) := rngB.next
  let blobRadius := 3 + ⌊v3 * 4⌋
  (intRange (blobCenterQ - blobRadius) (blobCenterQ + blobRadius)).foldl
    (fun (st1 : List Hex × Rng) q =>
      (intRange (blobCenterR - blobRadius) (blobCenterR + blobRadius)).foldl
        (fun (st2 : List Hex × Rng) r =>
          let (lm, rng0) := st2
          let d2 := (q - blobCenterQ) ^ 2 + (r - blobCenterR) ^ 2
          if d2 ≤ blobRadius ^ 2 then
            let (vn, rng1) := rng0.next
            let noise := (vn - 1/2) * 2
            let u : Rat := (7/10 + (2/5) * noise) * (blobRadius : Rat)
            if 0 < u ∧ (d2 : Rat) < u ^ 2 then (landInsert lm ⟨q, r⟩, rng1)
            else (lm, rng1)
          else st2)
        st1)
    (landMap, rngC)

/-- One random-walk tendril of `MapGenerator.generateLandmass`. -/
def generateTendril (st : List Hex × Rng) : List Hex × Rng :=
  let (landMap, rng) := st
  let landHexes := landMap
  if landHexes.length = 0 then st
  else
    let (v1, rngA) := rng.next
    let startHex := landHexes.getD (⌊v1 * landHexes.length⌋).toNat ⟨0, 0⟩
    let (v2, rngB) := rngA.next
    let tendrilLength := 2 + ⌊v2 * 4⌋
    let walk := (List.range tendrilLength.toNat).foldl
      (fun (st2 : Hex × List Hex × Rng) _ =>
        let (cur, lm, rng0) := st2
        let (vd, rng1) := rng0.next
        let direction := hexDirections.getD (⌊vd * 6⌋).toNat ⟨0, 0⟩
        let next : Hex := ⟨cur.q + direction.q, cur.r + direction.r⟩
        let (vp, rng2) := rng1.next
        if vp > 3/10 then (next, landInsert lm next, rng2)
        else (next, lm, rng2))
      (startHex, landMap, rngB)
    (walk.2.1, walk.2.2)

/-- One cellular-automaton smoothing pass of `generateLandmass`: a key of the
current land map survives when more than 20% of its six neighbours are land
(would be added when above 60%, but every scanned key is already land). -/
def smoothingPass (landMap : List Hex) : List Hex :=
  landMap.filter (fun hex =>
    let landNeighbors := ((getNeighbors hex).filter
      (fun n => landMap.contains n)).length
    let ratio : Rat := (landNeighbors : Rat) / 6
    if landMap.contains hex then ratio > 2/10 else ratio > 6/10)

/-- The breadth-first `while` loop of `MapGenerator.floodFill`; fuel bounds
the unbounded loop, `7 * |hexSet| + 1` steps always drain the queue. -/
def floodFillBfs (hexSet : List Hex) : Nat → List Hex → List Hex → List Hex →
    List Hex × List Hex
  | 0, _, visited, component => (component, visited)
  | _ + 1, [], visited, component => (component, visited)
  | fuel + 1, current :: rest, visited, component =>
    let fresh := (getNeighbors current).filter
      (fun n => !(visited.contains n) && hexSet.contains n)
    floodFillBfs hexSet fuel (rest ++ fresh) (visited ++ fresh)
      (component ++ [current])

/-- `MapGenerator.floodFill`: collect the component of `start`, sharing the
visited set across calls. -/
def floodFill (start : Hex) (hexSet : List Hex) (visited : List Hex)
    (fuel : Nat) : List Hex × List Hex :=
  if visited.contains start then ([], visited)
  else floodFillBfs hexSet fuel [start] (visited ++ [start]) []

/-- The loop body of `MapGenerator.getLargestComponent`: skip visited hexes,
otherwise flood fill and keep the component if strictly longer than the
current best.  State: (visited, largest component). -/
def getLargestComponentStep (hexes : List Hex) (acc : List Hex × List Hex)
    (hex : Hex) : List Hex × List Hex :=
  let (visited, largestComponent) := acc
  if visited.contains hex then acc
  else
    let fl := floodFill hex hexes visited (7 * hexes.length + 1)
    if fl.1.length > largestComponent.length then (fl.2, fl.1)
    else (fl.2, largestComponent)

/-- `MapGenerator.getLargestComponent`. -/
def getLargestComponent (hexes : List Hex) : List Hex :=
  (hexes.foldl (getLargestComponentStep hexes) ([], [])).2

/-- `MapGenerator.generateLandmass`: blobs, tendrils, smoothing, then the
largest connected component. -/
def generateLandmass (config : MapConfig) (rng : Rng) : List Hex :=
  let (v0, rng0) := rng.next
  let numBlobs := 2 + ⌊v0 * 3⌋
  let afterBlobs := (List.range numBlobs.toNat).foldl
    (fun st _ => generateBlob config st) (([] : List Hex), rng0)
  let (v1, rng1) := afterBlobs.2.next
  let numTendrils := 2 + ⌊v1 * 4⌋
  let afterTendrils := (List.range numTendrils.toNat).foldl
    (fun st _ => generateTendril st) (afterBlobs.1, rng1)
  let passes := min 2 config.smoothingPasses
  let smoothed := (List.range passes.toNat).foldl
    (fun lm _ => smoothingPass lm) afterTendrils.1
  getLargestComponent smoothed

/-- `MapGenerator.generateCells`: sequential ids, owner 0, one unit each. -/
def generateCells (landHexes : List Hex) : List Cell :=
  (List.range landHexes.length).map (fun index =>
    let hex := landHexes.getD index ⟨0, 0⟩
    { id := (index : Int), q := hex.q, r := hex.r, owner := 0, units := 1,
      land := true })

/-! ### Basic lemmas -/

/-- `find?` by id commutes with an id-preserving map. -/
theorem find_map_preserving (cells : List Cell) (g : Cell → Cell)
    (hg : ∀ c, (g c).id = c.id) (i : Int) :
    (cells.map g).find? (fun c => c.id == i) =
      (cells.find? (fun c => c.id == i)).map g := by
  induction cells with
  | nil => rfl
  | cons c cs ih =>
    by_cases h : c.id = i
    · rw [List.map_cons,
        List.find?_cons_of_pos _ (by simp [hg, h]),
        List.find?_cons_of_pos _ (by simp [h])]
      rfl
    · rw [List.map_cons,
        List.find?_cons_of_neg _ (by simp [hg, h]),
        List.find?_cons_of_neg _ (by simp [h]), ih]

/-- A cell returned by `find?` by id carries that id. -/
theorem find_id_eq {cells : List Cell} {i : Int} {c : Cell}
    (h : cells.find? (fun c => c.id == i) = some c) : c.id = i := by
  have := List.find?_some h
  simpa using this

/-- A cell returned by `find?` is a member of the list. -/
theorem find_mem {cells : List Cell} {p : Cell → Bool} {c : Cell}
    (h : cells.find? p = some c) : c ∈ cells :=
  List.mem_of_find?_eq_some h

/-! ### Claim C3: failed preconditions are silent no-ops -/

/-- Claim C3: whenever the matching `can` predicate rejects an action, the
corresponding entry point (`reinforce`, `attack`, `move`, `endTurn`) returns
the input state unchanged; all four entry points are total functions, so no
exception is possible. -/
theorem invalid_actions_are_noops :
    (∀ s cid, canReinforce s cid = false → reinforce s cid = s) ∧
    (∀ stream s fromId toId, canAttack s fromId toId = false →
      (attack stream s fromId toId).state = s) ∧
    (∀ s fromId toId unitCount, canMove s fromId toId = false →
      move s fromId toId unitCount = s) ∧
    (∀ s, canEndTurn s = false → endTurn s = s) := by
  refine ⟨fun s cid h => ?_, fun stream s fromId toId h => ?_,
    fun s fromId toId unitCount h => ?_, fun s h => ?_⟩
  · simp [reinforce, h]
  · simp [attack, h]
  · simp [move, h]
  · simp [endTurn, h]

/-- State used to witness the no-op theorems. -/
def noopState : GameState :=
  { cells := [], players := [0, 1], current := 0, phase := Phase.reinforce,
    reinfLeft := 3, actionsLeft := 5, scores := fun _ => 0, round := 1,
    selected := none, winGoal := 10 }

/-- Witness for C3 at a concrete state on which every precondition fails. -/
theorem invalid_actions_are_noops_witness :
    (canReinforce noopState 0 = false ∧ reinforce noopState 0 = noopState) ∧
    (canAttack noopState 0 1 = false ∧
      (attack (fun _ => 0) noopState 0 1).state = noopState) ∧
    (canMove noopState 0 1 = false ∧ move noopState 0 1 1 = noopState) ∧
    (canEndTurn noopState = false ∧ endTurn noopState = noopState) := by
  obtain ⟨h1, h2, h3, h4⟩ := invalid_actions_are_noops
  exact ⟨⟨by decide, h1 noopState 0 (by decide)⟩,
    ⟨by decide, h2 (fun _ => 0) noopState 0 1 (by decide)⟩,
    ⟨by decide, h3 noopState 0 1 1 (by decide)⟩,
    ⟨by decide, h4 noopState (by decide)⟩⟩

/-! ### Claim C10: a current player without land is permanently stuck -/

/-- Claim C10: in a reinforce-phase state with reinforcements and actions
remaining whose current player owns no land cell, every `can` predicate is
false and every entry point returns the state unchanged. -/
theorem landless_player_is_stuck (s : GameState)
    (hphase : s.phase = Phase.reinforce)
    (hreinf : 0 < s.reinfLeft) (hact : 0 < s.actionsLeft)
    (howns : ∀ c ∈ s.cells, c.land = true → c.owner ≠ s.current) :
    (∀ cid, canReinforce s cid = false ∧ reinforce s cid = s) ∧
    (∀ stream fromId toId, canAttack s fromId toId = false ∧
      (attack stream s fromId toId).state = s) ∧
    (∀ fromId toId unitCount, canMove s fromId toId = false ∧
      move s fromId toId unitCount = s) ∧
    canEndTurn s = false ∧ endTurn s = s := by
  have hcr : ∀ cid, canReinforce s cid = false := by
    intro cid
    unfold canReinforce
    rw [if_neg (by simp [hphase]; omega)]
    cases hfind : s.cells.find? (fun c => c.id == cid) with
    | none => rfl
    | some cell =>
      have hmem := find_mem hfind
      by_cases hland : cell.land = true
      · exact if_pos (Or.inr (howns cell hmem hland))
      · exact if_pos (Or.inl (by simp [hland]))
  have hca : ∀ fromId toId, canAttack s fromId toId = false := by
    intro fromId toId
    unfold canAttack
    rw [if_pos (Or.inl (by simp [hphase]))]
  have hcm : ∀ fromId toId, canMove s fromId toId = false := by
    intro fromId toId
    unfold canMove
    rw [if_pos (Or.inl (by simp [hphase]))]
  have hce : canEndTurn s = false := by
    simp only [canEndTurn, Bool.or_eq_false_iff, beq_eq_false_iff_ne]
    omega
  refine ⟨fun cid => ⟨hcr cid, by simp [reinforce, hcr cid]⟩,
    fun stream fromId toId => ⟨hca fromId toId, by simp [attack, hca fromId toId]⟩,
    fun fromId toId unitCount => ⟨hcm fromId toId, by simp [move, hcm fromId toId]⟩,
    hce, by simp [endTurn, hce]⟩

/-- Concrete state for the C10 witness: player 0 to move, but the only land
cell belongs to player 1. -/
def stuckState : GameState :=
  { cells := [⟨0, 0, 0, 1, 1, true⟩], players := [0, 1], current := 0,
    phase := Phase.reinforce, reinfLeft := 1, actionsLeft := 5,
    scores := fun _ => 0, round := 1, selected := none, winGoal := 10 }

/-- Witness for C10 at `stuckState`. -/
theorem landless_player_is_stuck_witness :
    (canReinforce stuckState 0 = false ∧ reinforce stuckState 0 = stuckState) ∧
    (canAttack stuckState 0 0 = false ∧
      (attack (fun _ => 0) stuckState 0 0).state = stuckState) ∧
    (canMove stuckState 0 0 = false ∧ move stuckState 0 0 1 = stuckState) ∧
    canEndTurn stuckState = false ∧ endTurn stuckState = stuckState := by
  obtain ⟨h1, h2, h3, h4⟩ := landless_player_is_stuck stuckState (by decide)
    (by decide) (by decide) (by decide)
  exact ⟨h1 0, h2 (fun _ => 0) 0 0, h3 0 0 1, h4⟩

/-! ### Combat lemmas -/

/-- Unpacking `canAttack = true`. -/
theorem canAttack_spec {s : GameState} {fromId toId : Int} {fc tc : Cell}
    (hf : s.cells.find? (fun c => c.id == fromId) = some fc)
    (ht : s.cells.find? (fun c => c.id == toId) = some tc)
    (hcan : canAttack s fromId toId = true) :
    s.phase = Phase.attack ∧ 0 < s.actionsLeft ∧ fc.land = true ∧
    tc.land = true ∧ fc.owner = s.current ∧ tc.owner ≠ s.current ∧
    1 ≤ fc.units ∧ areAdjacent ⟨fc.q, fc.r⟩ ⟨tc.q, tc.r⟩ = true := by
  unfold canAttack at hcan
  rw [hf, ht] at hcan
  simp only [] at hcan
  split_ifs at hcan with h1 h2 h3 h4
  push_neg at h1 h2 h3
  exact ⟨h1.1, by omega, by simpa using h2.1, by simpa using h2.2, h3.1, h3.2,
    by omega, hcan⟩

/-- A legal attack never targets the attacked-from id: the two cells found
would coincide, and one cell cannot both be and not be the current player's. -/
theorem canAttack_from_ne_to {s : GameState} {fromId toId : Int} {fc tc : Cell}
    (hf : s.cells.find? (fun c => c.id == fromId) = some fc)
    (ht : s.cells.find? (fun c => c.id == toId) = some tc)
    (hcan : canAttack s fromId toId = true) : fromId ≠ toId := by
  intro hEq
  obtain ⟨-, -, -, -, ho1, ho2, -, -⟩ := canAttack_spec hf ht hcan
  rw [hEq, ht] at hf
  cases hf
  exact ho2 ho1

/-! ### Claim C7: combat conservation, win case -/

/-- Claim C7: in a valid attack with at least 2 attacking units and at least
1 defending unit that the attacker wins, the origin keeps exactly 1 unit and
the target gets the attacker's remaining `A - 1` units and the attacker as
owner. -/
theorem attack_win_conservation (stream : Nat → Rat) (s : GameState)
    (fromId toId : Int) (fc tc : Cell)
    (hf : s.cells.find? (fun c => c.id == fromId) = some fc)
    (ht : s.cells.find? (fun c => c.id == toId) = some tc)
    (hcan : canAttack s fromId toId = true)
    (hA : 2 ≤ fc.units) (hD : 1 ≤ tc.units)
    (hwin : (attack stream s fromId toId).dice.attackerWins = true) :
    (attack stream s fromId toId).state.cells.find? (fun c => c.id == fromId) =
      some { fc with units := 1 } ∧
    (attack stream s fromId toId).state.cells.find? (fun c => c.id == toId) =
      some { tc with owner := s.current, units := fc.units - 1 } := by
  have hne := canAttack_from_ne_to hf ht hcan
  have hfid := find_id_eq hf
  have htid := find_id_eq ht
  have h0 : ¬ tc.units = 0 := by omega
  simp only [attack, hcan, if_true, hf, ht, if_neg h0] at hwin ⊢
  simp only [hwin, if_true]
  rw [find_map_preserving _ _ (fun c => by split_ifs <;> rfl) fromId, hf,
      find_map_preserving _ _ (fun c => by split_ifs <;> rfl) toId, ht]
  constructor
  · simp [hfid, hA]
  · simp [htid, hA, Ne.symm hne]

/-- State for the C7 witness: 3 attacking units against 1 defender; the
all-zero stream rolls only ones, so totals are 3 against 1 and the attacker
wins. -/
def winState : GameState :=
  { cells := [⟨0, 0, 0, 0, 3, true⟩, ⟨1, 1, 0, 1, 1, true⟩],
    players := [0, 1], current := 0, phase := Phase.attack, reinfLeft := 0,
    actionsLeft := 2, scores := fun _ => 0, round := 1, selected := none,
    winGoal := 5 }

/-- Witness for C7 on `winState`. -/
theorem attack_win_conservation_witness :
    (attack (fun _ => 0) winState 0 1).state.cells.find?
        (fun c => c.id == 0) = some ⟨0, 0, 0, 0, 1, true⟩ ∧
    (attack (fun _ => 0) winState 0 1).state.cells.find?
        (fun c => c.id == 1) = some ⟨1, 1, 0, 0, 2, true⟩ := by
  have h := attack_win_conservation (fun _ => 0) winState 0 1
    ⟨0, 0, 0, 0, 3, true⟩ ⟨1, 1, 0, 1, 1, true⟩ (by decide) (by decide)
    (by decide) (by decide) (by decide) (by with_unfolding_all decide)
  exact h

/-! ### Claim C5: combat conservation, loss case -/

/-- Claim C5: in a valid attack on a defended cell that the attacker loses,
the origin flips to the defender's owner keeping its unit count, and the
target gains one unit capped at 8. -/
theorem attack_loss_sacrificial (stream : Nat → Rat) (s : GameState)
    (fromId toId : Int) (fc tc : Cell)
    (hf : s.cells.find? (fun c => c.id == fromId) = some fc)
    (ht : s.cells.find? (fun c => c.id == toId) = some tc)
    (hcan : canAttack s fromId toId = true)
    (hD : 1 ≤ tc.units)
    (hloss : (attack stream s fromId toId).dice.attackerWins = false) :
    (attack stream s fromId toId).state.cells.find? (fun c => c.id == fromId) =
      some { fc with owner := tc.owner } ∧
    (attack stream s fromId toId).state.cells.find? (fun c => c.id == toId) =
      some { tc with units := min 8 (tc.units + 1) } := by
  have hne := canAttack_from_ne_to hf ht hcan
  have hfid := find_id_eq hf
  have htid := find_id_eq ht
  have h0 : ¬ tc.units = 0 := by omega
  simp only [attack, hcan, if_true, hf, ht, if_neg h0] at hloss ⊢
  simp only [hloss, Bool.false_eq_true, if_false]
  rw [find_map_preserving _ _ (fun c => by split_ifs <;> rfl) fromId, hf,
      find_map_preserving _ _ (fun c => by split_ifs <;> rfl) toId, ht]
  constructor
  · simp [hfid]
  · simp [htid, hD, Ne.symm hne]
    omega

/-- State for the C5 witness: 1 attacking unit against 3 defenders; the
all-zero stream rolls only ones, totals 1 against 3, attacker loses. -/
def lossState : GameState :=
  { cells := [⟨0, 0, 0, 0, 1, true⟩, ⟨1, 1, 0, 1, 3, true⟩],
    players := [0, 1], current := 0, phase := Phase.attack, reinfLeft := 0,
    actionsLeft := 2, scores := fun _ => 0, round := 1, selected := none,
    winGoal := 5 }

/-- Witness for C5 on `lossState`. -/
theorem attack_loss_sacrificial_witness :
    (attack (fun _ => 0) lossState 0 1).state.cells.find?
        (fun c => c.id == 0) = some ⟨0, 0, 0, 1, 1, true⟩ ∧
    (attack (fun _ => 0) lossState 0 1).state.cells.find?
        (fun c => c.id == 1) = some ⟨1, 1, 0, 1, 4, true⟩ := by
  have h := attack_loss_sacrificial (fun _ => 0) lossState 0 1
    ⟨0, 0, 0, 0, 1, true⟩ ⟨1, 1, 0, 1, 3, true⟩ (by decide) (by decide)
    (by decide) (by decide) (by with_unfolding_all decide)
  exact h

/-! ### Claim C6: auto-capture consumes no action, dice path consumes one -/

/-- Claim C6: a valid attack on a 0-unit cell captures it for the current
player with no dice (empty roll) and without touching `actionsLeft`; a valid
attack on a defended cell rolls one die per unit on each side and decrements
`actionsLeft` by exactly one. -/
theorem attack_action_asymmetry (stream : Nat → Rat) (s : GameState)
    (fromId toId : Int) (fc tc : Cell)
    (hf : s.cells.find? (fun c => c.id == fromId) = some fc)
    (ht : s.cells.find? (fun c => c.id == toId) = some tc)
    (hcan : canAttack s fromId toId = true) :
    (tc.units = 0 →
      (attack stream s fromId toId).dice = createEmptyDiceRoll ∧
      (attack stream s fromId toId).state.actionsLeft = s.actionsLeft ∧
      (attack stream s fromId toId).state.cells.find? (fun c => c.id == toId) =
        some { tc with
               owner := s.current
               units := if 2 ≤ fc.units then fc.units - 1 else fc.units }) ∧
    (0 < tc.units →
      (attack stream s fromId toId).state.actionsLeft = s.actionsLeft - 1 ∧
      (attack stream s fromId toId).dice.attacker.length = fc.units.toNat ∧
      (attack stream s fromId toId).dice.defender.length = tc.units.toNat) := by
  have hne := canAttack_from_ne_to hf ht hcan
  have hfid := find_id_eq hf
  have htid := find_id_eq ht
  constructor
  · intro h0
    simp only [attack, hcan, if_true, hf, ht, if_pos h0]
    refine ⟨by trivial, by trivial, ?_⟩
    rw [find_map_preserving _ _ (fun c => by split_ifs <;> rfl) toId, ht]
    simp [htid, Ne.symm hne]
  · intro hD
    have h0 : ¬ tc.units = 0 := by omega
    simp only [attack, hcan, if_true, hf, ht, if_neg h0]
    simp [rollDice]

/-- State for the C6 witness, auto-capture part: target holds 0 units. -/
def autoState : GameState :=
  { cells := [⟨0, 0, 0, 0, 2, true⟩, ⟨1, 1, 0, 1, 0, true⟩],
    players := [0, 1], current := 0, phase := Phase.attack, reinfLeft := 0,
    actionsLeft := 3, scores := fun _ => 0, round := 1, selected := none,
    winGoal := 5 }

/-- State for the C6 witness, dice part: target holds 2 units. -/
def dicedState : GameState :=
  { cells := [⟨0, 0, 0, 0, 2, true⟩, ⟨1, 1, 0, 1, 2, true⟩],
    players := [0, 1], current := 0, phase := Phase.attack, reinfLeft := 0,
    actionsLeft := 3, scores := fun _ => 0, round := 1, selected := none,
    winGoal := 5 }

/-- Witness for C6 on `autoState` (auto-capture) and `dicedState` (dice). -/
theorem attack_action_asymmetry_witness :
    ((attack (fun _ => 0) autoState 0 1).dice = createEmptyDiceRoll ∧
      (attack (fun _ => 0) autoState 0 1).state.actionsLeft = 3) ∧
    ((attack (fun _ => 0) dicedState 0 1).state.actionsLeft = 2 ∧
      (attack (fun _ => 0) dicedState 0 1).dice.attacker.length = 2 ∧
      (attack (fun _ => 0) dicedState 0 1).dice.defender.length = 2) := by
  obtain ⟨hauto, -⟩ := attack_action_asymmetry (fun _ => 0) autoState 0 1
    ⟨0, 0, 0, 0, 2, true⟩ ⟨1, 1, 0, 1, 0, true⟩ (by decide) (by decide)
    (by decide)
  obtain ⟨-, hdice⟩ := attack_action_asymmetry (fun _ => 0) dicedState 0 1
    ⟨0, 0, 0, 0, 2, true⟩ ⟨1, 1, 0, 1, 2, true⟩ (by decide) (by decide)
    (by decide)
  obtain ⟨ha1, ha2, -⟩ := hauto (by decide)
  exact ⟨⟨ha1, ha2⟩, hdice (by decide)⟩

/-! ### Claim C1: exclave scores after attack resolution -/

/-- Scores updated for an absent player keep their previous value. -/
theorem foldl_update_not_mem (f : PlayerId → Int) (l : List PlayerId)
    (scores : PlayerId → Int) (p : PlayerId) (hp : p ∉ l) :
    l.foldl (fun sc q => Function.update sc q (f q)) scores p = scores p := by
  induction l generalizing scores with
  | nil => rfl
  | cons q qs ih =>
    have hpq : p ≠ q := fun h => hp (h ▸ List.mem_cons_self q qs)
    have hpqs : p ∉ qs := fun h => hp (List.mem_cons_of_mem q h)
    rw [List.foldl_cons, ih _ hpqs]
    exact Function.update_noteq hpq _ _

/-- After `updateExclaveScores`, every listed player's score is the length of
their exclave list. -/
theorem updateExclaveScores_mem (players : List PlayerId) (cells : List Cell)
    (scores : PlayerId → Int) (p : PlayerId) (hp : p ∈ players) :
    updateExclaveScores players cells scores p =
      ((detectExclaves cells p).length : Int) := by
  unfold updateExclaveScores
  induction players generalizing scores with
  | nil => cases hp
  | cons q qs ih =>
    rw [List.foldl_cons]
    rcases List.mem_cons.mp hp with h | h
    · subst h
      by_cases hq : p ∈ qs
      · exact ih _ hq
      · rw [foldl_update_not_mem _ _ _ _ hq]
        simp
    · exact ih _ h

/-- The scores of a state match the exclave counts of all its players. -/
def scoresMatchExclaves (s : GameState) : Prop :=
  ∀ p ∈ s.players, s.scores p = ((detectExclaves s.cells p).length : Int)

instance (s : GameState) : Decidable (scoresMatchExclaves s) :=
  inferInstanceAs (Decidable (∀ p ∈ s.players,
    s.scores p = ((detectExclaves s.cells p).length : Int)))

/-- State refuting C1: player 0 has 2 units at (2,-1); player 1 owns the
connected strip (1,0), (2,0), (3,0) whose middle cell is empty.  All scores
are 0 and correct.  Auto-capturing (2,0) splits player 1 without any score
recomputation. -/
def staleState : GameState :=
  { cells :=
      [⟨0, 2, -1, 0, 2, true⟩, ⟨1, 1, 0, 1, 1, true⟩,
       ⟨2, 2, 0, 1, 0, true⟩, ⟨3, 3, 0, 1, 1, true⟩],
    players := [0, 1], current := 0, phase := Phase.attack, reinfLeft := 0,
    actionsLeft := 3, scores := fun _ => 0, round := 1, selected := none,
    winGoal := 5 }

/-- Counterexample to C1: on `staleState` the scores invariant holds, the
attack on the empty cell (2,0) is legal, yet afterwards player 1's score is
still 0 while they own one exclave component. -/
theorem autocapture_leaves_scores_stale :
    scoresMatchExclaves staleState ∧
    canAttack staleState 0 2 = true ∧
    (staleState.cells.find? (fun c => c.id == 2)).map Cell.units = some 0 ∧
    (attack (fun _ => 0) staleState 0 2).state.scores 1 = 0 ∧
    (detectExclaves (attack (fun _ => 0) staleState 0 2).state.cells 1).length
      = 1 := by
  decide

/-- Claim C1 (amended): after a dice-rolled attack resolution every player's
score equals the number of their exclave components; the auto-capture path
leaves all scores unchanged (possibly stale). -/
theorem attack_scores_recomputed (stream : Nat → Rat) (s : GameState)
    (fromId toId : Int) (fc tc : Cell)
    (hf : s.cells.find? (fun c => c.id == fromId) = some fc)
    (ht : s.cells.find? (fun c => c.id == toId) = some tc)
    (hcan : canAttack s fromId toId = true) :
    (tc.units = 0 → (attack stream s fromId toId).state.scores = s.scores) ∧
    (tc.units ≠ 0 → ∀ p ∈ s.players,
      (attack stream s fromId toId).state.scores p =
        ((detectExclaves (attack stream s fromId toId).state.cells p).length
          : Int)) := by
  constructor
  · intro h0
    simp only [attack, hcan, if_true, hf, ht, if_pos h0]
  · intro h0 p hp
    simp only [attack, hcan, if_true, hf, ht, if_neg h0]
    exact updateExclaveScores_mem _ _ _ p hp

/-- Dice-path state for the C1 witness: same board as `staleState` but the
target cell (2,0) holds one unit, so the attack rolls dice. -/
def rescoredState : GameState :=
  { cells :=
      [⟨0, 2, -1, 0, 2, true⟩, ⟨1, 1, 0, 1, 1, true⟩,
       ⟨2, 2, 0, 1, 1, true⟩, ⟨3, 3, 0, 1, 1, true⟩],
    players := [0, 1], current := 0, phase := Phase.attack, reinfLeft := 0,
    actionsLeft := 3, scores := fun _ => 0, round := 1, selected := none,
    winGoal := 5 }

/-- Witness for C1 (amended), exercising the auto-capture part on
`staleState` and the dice part on `rescoredState` for player 1. -/
theorem attack_scores_recomputed_witness :
    (attack (fun _ => 0) staleState 0 2).state.scores = staleState.scores ∧
    (attack (fun _ => 0) rescoredState 0 2).state.scores 1 =
      ((detectExclaves (attack (fun _ => 0) rescoredState 0 2).state.cells
        1).length : Int) := by
  have h1 := (attack_scores_recomputed (fun _ => 0) staleState 0 2
    ⟨0, 2, -1, 0, 2, true⟩ ⟨2, 2, 0, 1, 0, true⟩ (by decide) (by decide)
    (by decide)).1 (by decide)
  have h2 := (attack_scores_recomputed (fun _ => 0) rescoredState 0 2
    ⟨0, 2, -1, 0, 2, true⟩ ⟨2, 2, 0, 1, 1, true⟩ (by decide) (by decide)
    (by decide)).2 (by decide) 1 (by decide)
  exact ⟨h1, h2⟩

/-! ### Claim C9: end of turn -/

/-- `jsIndexOfAux` finds the position of the unique occurrence. -/
theorem jsIndexOfAux_eq (x : PlayerId) (l : List PlayerId) :
    ∀ (i : Nat) (k : Int) (_ : l.Nodup) (hi : i < l.length),
      l.get ⟨i, hi⟩ = x → jsIndexOfAux x l k = k + i := by
  induction l with
  | nil => intro i k _ hi _; exact absurd hi (by simp)
  | cons a as ih =>
    intro i k hnd hi hx
    cases i with
    | zero =>
      have ha : a = x := hx
      simp [jsIndexOfAux, ha]
    | succ j =>
      have hj : j < as.length := by simpa using hi
      have hxas : as.get ⟨j, hj⟩ = x := hx
      have hax : ¬ a = x := by
        intro h
        have hmem : x ∈ as := hxas ▸ as.get_mem j hj
        exact (List.nodup_cons.mp hnd).1 (h ▸ hmem)
      rw [jsIndexOfAux, if_neg hax, ih j (k + 1) (List.nodup_cons.mp hnd).2 hj hxas]
      omega

/-- `jsIndexOf` on a duplicate-free list returns the index of the element. -/
theorem jsIndexOf_eq (l : List PlayerId) (x : PlayerId) (i : Nat)
    (hnd : l.Nodup) (hi : i < l.length) (hx : l.get ⟨i, hi⟩ = x) :
    jsIndexOf l x = (i : Int) := by
  have := jsIndexOfAux_eq x l i 0 hnd hi hx
  simpa [jsIndexOf] using this

/-- Claim C9: when ending the turn is allowed, `endTurn` advances `current`
to the next player in list order (wrapping), increments `round` exactly on
wrap-around to the first player, grants the next player
`max 1 (ownedLandHexCount / 6)` reinforcements, resets `actionsLeft` to 5 and
the phase to reinforce, and clears the selection; nothing else changes. -/
theorem endTurn_rotation (s : GameState) (i : Nat)
    (hnd : s.players.Nodup) (hi : i < s.players.length)
    (hcur : s.players.get ⟨i, hi⟩ = s.current)
    (hcan : canEndTurn s = true) :
    endTurn s = { s with
      current := s.players.getD ((i + 1) % s.players.length) 0
      phase := Phase.reinforce
      reinfLeft := max 1 ((getPlayerTerritoryCount s
        (s.players.getD ((i + 1) % s.players.length) 0) : Int) / 6)
      actionsLeft := 5
      selected := none
      round := if (i + 1) % s.players.length = 0 then s.round + 1
               else s.round } := by
  have hlen : 0 < s.players.length := by omega
  have hmodlt : (i + 1) % s.players.length < s.players.length :=
    Nat.mod_lt _ hlen
  have hidx : jsIndexOf s.players s.current = (i : Int) :=
    jsIndexOf_eq s.players s.current i hnd hi hcur
  have hmod : (jsIndexOf s.players s.current + 1) % (s.players.length : Int) =
      (((i + 1) % s.players.length : Nat) : Int) := by
    rw [hidx, Int.natCast_mod]
    push_cast
    ring_nf
  have hiff : (s.players.getD 0 0 =
      s.players.getD ((i + 1) % s.players.length) 0) ↔
      (i + 1) % s.players.length = 0 := by
    rw [List.getD_eq_getElem s.players 0 hlen,
      List.getD_eq_getElem s.players 0 hmodlt, hnd.getElem_inj_iff, eq_comm]
  simp only [endTurn, hcan, if_true, hmod, Int.toNat_natCast]
  by_cases hz : (i + 1) % s.players.length = 0
  · rw [if_pos (hiff.mpr hz), if_pos hz]
  · rw [if_neg (fun h => hz (hiff.mp h)), if_neg hz]

/-- State for the C9 witness: two players, player 0 to move, out of
reinforcements, player 1 owning seven land hexes. -/
def turnState : GameState :=
  { cells := (List.range 7).map (fun k =>
      (⟨(k : Int), (k : Int), 0, 1, 1, true⟩ : Cell)),
    players := [0, 1], current := 0, phase := Phase.attack, reinfLeft := 0,
    actionsLeft := 2, scores := fun _ => 0, round := 4, selected := some 3,
    winGoal := 5 }

/-- Same position but with player 1 (the last player) to move. -/
def turnStateLast : GameState := { turnState with current := 1 }

/-- Witness for C9: ending player 0's turn passes to player 1 with
`max 1 (7 / 6) = 1` reinforcement and no round change; ending player 1's
turn wraps to player 0 and increments the round. -/
theorem endTurn_rotation_witness :
    endTurn turnState = { turnState with
      current := 1, phase := Phase.reinforce, reinfLeft := 1,
      actionsLeft := 5, selected := none, round := 4 } ∧
    endTurn turnStateLast = { turnStateLast with
      current := 0, phase := Phase.reinforce, reinfLeft := 1,
      actionsLeft := 5, selected := none, round := 5 } := by
  have h0 := endTurn_rotation turnState 0 (by decide) (by decide) (by decide)
    (by decide)
  have h1 := endTurn_rotation turnStateLast 1 (by decide) (by decide)
    (by decide) (by decide)
  exact ⟨h0.trans (by decide), h1.trans (by decide)⟩

/-! ### Claim C2: contiguity of split territories -/

/-- The hexes a player owns in a cell list, in list order. -/
def ownedHexes (cells : List Cell) (p : PlayerId) : List Hex :=
  (cells.filter (fun c => c.land && c.owner == p)).map Cell.hex

/-- A hairpin landmass: two horizontal arms joined only at the right end.
The farthest pair is (0,0)-(4,2), so the voronoi split assigns parts of both
arms to player 0 even though they connect only through player 1's joint. -/
def hairpinHexes : List Hex :=
  [⟨0,0⟩, ⟨1,0⟩, ⟨2,0⟩, ⟨3,0⟩, ⟨4,0⟩, ⟨4,1⟩, ⟨0,2⟩, ⟨1,2⟩, ⟨2,2⟩, ⟨3,2⟩, ⟨4,2⟩]

/-- A generator stream cycling through the eighths 0, 5/8, 2/8, 7/8, ... -/
def hairpinStream : Nat → Rat := fun n => ((5 * n) % 8 : Nat) / 8

/-- The split of the hairpin board for 2 players. -/
def hairpinSplit : List Cell :=
  match splitTerritory (generateCells hairpinHexes) ⟨2, 1⟩ ⟨hairpinStream, 0⟩
      2000 with
  | .ok out => out
  | .error _ => []

set_option maxRecDepth 10000

/-- The split of the hairpin board succeeds (11 land hexes against a minimum
of `1 * 2`). -/
theorem hairpinSplit_accepted :
    (splitTerritory (generateCells hairpinHexes) ⟨2, 1⟩ ⟨hairpinStream, 0⟩
      2000).isOk = true := by
  with_unfolding_all decide

/-- Player 0's owned hexes after the hairpin split: three cells of the top
arm and two of the bottom arm. -/
theorem hairpinSplit_owned0 :
    ownedHexes hairpinSplit 0 = [⟨0,0⟩, ⟨1,0⟩, ⟨2,0⟩, ⟨0,2⟩, ⟨1,2⟩] := by
  with_unfolding_all decide

/-- Paths inside player 0's post-split territory never leave row 0: its five
hexes lie in rows 0 and 2, and single hex steps change the row by at most 1. -/
theorem hairpin_r_invariant (a b : Hex)
    (h : ReachableIn [⟨0,0⟩, ⟨1,0⟩, ⟨2,0⟩, ⟨0,2⟩, ⟨1,2⟩] a b) (ha : a.r = 0) :
    b.r = 0 := by
  induction h with
  | refl => exact ha
  | tail _ hstep ih =>
    obtain ⟨hm, hb, hadj⟩ := hstep
    simp only [List.mem_cons, List.not_mem_nil, or_false] at hb
    simp only [Adj, getNeighbors, hexDirections, List.map_cons, List.map_nil,
      List.mem_cons, List.not_mem_nil, or_false] at hadj
    rcases hb with rfl | rfl | rfl | rfl | rfl <;>
      rcases hadj with heq | heq | heq | heq | heq | heq <;>
      simp only [Hex.mk.injEq] at heq <;>
      simp <;> omega

/-- Claim C2 fails on the code: `splitTerritory` accepts the hairpin board,
yet player 0 ends up owning both (0,0) and (0,2) with no path between them
inside their territory — two connected components.  (`enforceContiguity`
reassigns a territory's stray hexes to the nearest already-processed
territory, which for the first player is that same player.) -/
theorem splitTerritory_breaks_contiguity :
    (splitTerritory (generateCells hairpinHexes) ⟨2, 1⟩ ⟨hairpinStream, 0⟩
      2000).isOk = true ∧
    (⟨0, 0⟩ : Hex) ∈ ownedHexes hairpinSplit 0 ∧
    (⟨0, 2⟩ : Hex) ∈ ownedHexes hairpinSplit 0 ∧
    ¬ ReachableIn (ownedHexes hairpinSplit 0) ⟨0, 0⟩ ⟨0, 2⟩ := by
  refine ⟨hairpinSplit_accepted, ?_, ?_, ?_⟩
  · rw [hairpinSplit_owned0]; decide
  · rw [hairpinSplit_owned0]; decide
  · rw [hairpinSplit_owned0]
    intro hr
    have := hairpin_r_invariant _ _ hr rfl
    simp at this

/-! ### Claim C4: unit bounds on reachable states -/

/-- Every cell's unit count lies in the interval [0, 8]. -/
def cellsBounded (cells : List Cell) : Prop :=
  ∀ c ∈ cells, 0 ≤ c.units ∧ c.units ≤ 8

/-- Cell ids are pairwise distinct. -/
def idsNodup (cells : List Cell) : Prop :=
  (cells.map Cell.id).Nodup

/-- Cells created by `generateCells` hold one unit each. -/
theorem generateCells_bounded (hexes : List Hex) :
    cellsBounded (generateCells hexes) := by
  intro c hc
  simp only [generateCells, List.mem_map, List.mem_range] at hc
  obtain ⟨i, -, rfl⟩ := hc
  exact ⟨by norm_num, by norm_num⟩

/-- Cells created by `generateCells` have pairwise distinct (sequential) ids. -/
theorem generateCells_idsNodup (hexes : List Hex) :
    idsNodup (generateCells hexes) := by
  unfold idsNodup generateCells
  rw [List.map_map]
  exact (List.nodup_range _).map (fun a b h => by
    simp only [Function.comp] at h
    exact_mod_cast h)

/-- Membership is id-injective on an id-duplicate-free cell list. -/
theorem mem_id_unique {cells : List Cell} (h : idsNodup cells) {c d : Cell}
    (hc : c ∈ cells) (hd : d ∈ cells) (hid : c.id = d.id) : c = d :=
  List.inj_on_of_nodup_map h hc hd hid

/-- Mapping an id-preserving function leaves the id list unchanged. -/
theorem map_ids_eq {f : Cell → Cell} (hf : ∀ c, (f c).id = c.id)
    (cells : List Cell) : (cells.map f).map Cell.id = cells.map Cell.id := by
  rw [List.map_map]
  exact List.map_congr_left (fun c _ => hf c)

/-- A per-cell bounded map keeps the list bounded. -/
theorem cellsBounded_map {cells : List Cell} {f : Cell → Cell}
    (hf : ∀ c ∈ cells, 0 ≤ (f c).units ∧ (f c).units ≤ 8) :
    cellsBounded (cells.map f) := by
  intro c hc
  obtain ⟨d, hd, rfl⟩ := List.mem_map.mp hc
  exact hf d hd

/-- `updateFirst` with an id-preserving update keeps the id list. -/
theorem updateFirst_ids {p : Cell → Bool} {f : Cell → Cell}
    (hf : ∀ c, (f c).id = c.id) :
    ∀ l : List Cell, (updateFirst p f l).map Cell.id = l.map Cell.id := by
  intro l
  induction l with
  | nil => rfl
  | cons x xs ih =>
    unfold updateFirst
    split_ifs
    · simp [hf]
    · simp [ih]

/-- `updateFirst` with an unconditionally bound-preserving update keeps the
list bounded. -/
theorem updateFirst_bounded {p : Cell → Bool} {f : Cell → Cell}
    (hf : ∀ c, 0 ≤ c.units ∧ c.units ≤ 8 → 0 ≤ (f c).units ∧ (f c).units ≤ 8) :
    ∀ l : List Cell, cellsBounded l → cellsBounded (updateFirst p f l) := by
  intro l
  induction l with
  | nil => exact fun h => h
  | cons x xs ih =>
    intro h c hc
    have hx := h x (List.mem_cons_self x xs)
    have hxs : cellsBounded xs := fun d hd => h d (List.mem_cons_of_mem x hd)
    unfold updateFirst at hc
    split_ifs at hc
    · rcases List.mem_cons.mp hc with rfl | hmem
      · exact hf x hx
      · exact hxs c hmem
    · rcases List.mem_cons.mp hc with rfl | hmem
      · exact hx
      · exact ih hxs c hmem

/-- `updateFirst` stays bounded when the update is bound-preserving at the
cell actually found (the first match). -/
theorem updateFirst_bounded_of_found {p : Cell → Bool} {f : Cell → Cell}
    {l : List Cell} {c0 : Cell} (hfind : l.find? p = some c0)
    (hfc : 0 ≤ (f c0).units ∧ (f c0).units ≤ 8) (h : cellsBounded l) :
    cellsBounded (updateFirst p f l) := by
  induction l with
  | nil => cases hfind
  | cons x xs ih =>
    intro c hc
    have hx := h x (List.mem_cons_self x xs)
    have hxs : cellsBounded xs := fun d hd => h d (List.mem_cons_of_mem x hd)
    unfold updateFirst at hc
    by_cases hp : p x = true
    · rw [List.find?_cons_of_pos _ hp] at hfind
      cases hfind
      rw [if_pos hp] at hc
      rcases List.mem_cons.mp hc with rfl | hmem
      · exact hfc
      · exact hxs c hmem
    · rw [List.find?_cons_of_neg _ (by simpa using hp)] at hfind
      rw [if_neg hp] at hc
      rcases List.mem_cons.mp hc with rfl | hmem
      · exact hx
      · exact ih hfind hxs c hmem

/-- The random distribution loop keeps cells bounded: it only increments a
cell found to hold fewer than 8 units. -/
theorem distributeUnits_bounded (territory : List Hex) :
    ∀ (fuel : Nat) (cells : List Cell) (rng : Rng) (remaining : Int),
      cellsBounded cells →
      cellsBounded (distributeUnits territory fuel cells rng remaining).1 := by
  intro fuel
  induction fuel with
  | zero => exact fun cells _ _ h => h
  | succ n ih =>
    intro cells rng remaining h
    unfold distributeUnits
    split_ifs with hr
    · exact h
    · split
      next v rng1 hpair =>
        dsimp only
        split
        next cell hfind =>
          have hcell := h cell (find_mem hfind)
          split_ifs with hlt
          · refine ih _ _ _ (updateFirst_bounded_of_found hfind ?_ h)
            show 0 ≤ cell.units + 1 ∧ cell.units + 1 ≤ 8
            omega
          · exact ih _ _ _ h
        next hfind => exact ih _ _ _ h

/-- The random distribution loop never changes the id list. -/
theorem distributeUnits_ids (territory : List Hex) :
    ∀ (fuel : Nat) (cells : List Cell) (rng : Rng) (remaining : Int),
      ((distributeUnits territory fuel cells rng remaining).1).map Cell.id =
        cells.map Cell.id := by
  intro fuel
  induction fuel with
  | zero => intro cells _ _; rfl
  | succ n ih =>
    intro cells rng remaining
    unfold distributeUnits
    split_ifs with hr
    · rfl
    · split
      next v rng1 hpair =>
        dsimp only
        split
        next cell hfind =>
          split_ifs with hlt
          · refine (ih _ _ _).trans (updateFirst_ids ?_ _)
            exact fun c => rfl
          · exact ih _ _ _
        next hfind => exact ih _ _ _

/-- A fold of bound-preserving `updateFirst` steps over a hex list keeps the
cells bounded. -/
theorem foldl_updateFirst_bounded (hexes : List Hex)
    (p : Hex → Cell → Bool) (f : Cell → Cell)
    (hf : ∀ c, 0 ≤ c.units ∧ c.units ≤ 8 → 0 ≤ (f c).units ∧ (f c).units ≤ 8) :
    ∀ cells : List Cell, cellsBounded cells →
      cellsBounded (hexes.foldl (fun cs hex => updateFirst (p hex) f cs) cells) := by
  induction hexes with
  | nil => exact fun cells h => h
  | cons hex hexes ih =>
    intro cells h
    exact ih _ (updateFirst_bounded hf _ h)

/-- A fold of id-preserving `updateFirst` steps keeps the id list. -/
theorem foldl_updateFirst_ids (hexes : List Hex)
    (p : Hex → Cell → Bool) (f : Cell → Cell) (hf : ∀ c, (f c).id = c.id) :
    ∀ cells : List Cell,
      (hexes.foldl (fun cs hex => updateFirst (p hex) f cs) cells).map Cell.id =
        cells.map Cell.id := by
  induction hexes with
  | nil => exact fun cells => rfl
  | cons hex hexes ih =>
    intro cells
    rw [List.foldl_cons, ih _, updateFirst_ids hf]

/-- `assignPlayersToTerritories` keeps the cells bounded: ownership writes
reset units to 0, distribution increments under the cap, zero cells get 1. -/
theorem assignPlayers_bounded (cells : List Cell)
    (territories : List (List Hex)) (rng : Rng) (fuel : Nat)
    (h : cellsBounded cells) :
    cellsBounded (assignPlayersToTerritories cells territories rng fuel).1 := by
  unfold assignPlayersToTerritories
  generalize List.range territories.length = idxs
  induction idxs generalizing cells rng with
  | nil => exact h
  | cons i idxs ih =>
    rw [List.foldl_cons]
    apply ih
    apply foldl_updateFirst_bounded _ _ _ (fun c hc => by
      by_cases h0 : c.units = 0
      · simp [h0]
      · simpa [h0] using hc)
    apply distributeUnits_bounded
    exact foldl_updateFirst_bounded _ _ _ (fun c hc => by simp) _ h

/-- `assignPlayersToTerritories` never changes the id list. -/
theorem assignPlayers_ids (cells : List Cell)
    (territories : List (List Hex)) (rng : Rng) (fuel : Nat) :
    ((assignPlayersToTerritories cells territories rng fuel).1).map Cell.id =
      cells.map Cell.id := by
  unfold assignPlayersToTerritories
  generalize List.range territories.length = idxs
  induction idxs generalizing cells rng with
  | nil => rfl
  | cons i idxs ih =>
    rw [List.foldl_cons, ih]
    refine ((foldl_updateFirst_ids _ _ _ ?_ _).trans
      ((distributeUnits_ids _ _ _ _ _).trans
        (foldl_updateFirst_ids _ _ _ ?_ _)))
    · exact fun c => by split_ifs <;> rfl
    · exact fun c => rfl

/-- A successful `splitTerritory` keeps the cells bounded. -/
theorem splitTerritory_bounded {cells out : List Cell} {config : SplitConfig}
    {rng : Rng} {fuel : Nat}
    (hok : splitTerritory cells config rng fuel = Except.ok out)
    (h : cellsBounded cells) : cellsBounded out := by
  unfold splitTerritory at hok
  dsimp only at hok
  split_ifs at hok
  cases hok
  exact assignPlayers_bounded _ _ _ _ h

/-- A successful `splitTerritory` keeps the id list. -/
theorem splitTerritory_ids {cells out : List Cell} {config : SplitConfig}
    {rng : Rng} {fuel : Nat}
    (hok : splitTerritory cells config rng fuel = Except.ok out) :
    out.map Cell.id = cells.map Cell.id := by
  unfold splitTerritory at hok
  dsimp only at hok
  split_ifs at hok
  cases hok
  exact assignPlayers_ids _ _ _ _

/-- Unpacking `canMove = true`. -/
theorem canMove_spec {s : GameState} {fromId toId : Int} {fc tc : Cell}
    (hf : s.cells.find? (fun c => c.id == fromId) = some fc)
    (ht : s.cells.find? (fun c => c.id == toId) = some tc)
    (hcan : canMove s fromId toId = true) :
    s.phase = Phase.attack ∧ 0 < s.actionsLeft ∧ fc.land = true ∧
    tc.land = true ∧ fc.owner = s.current ∧ tc.owner = s.current ∧
    1 < fc.units := by
  unfold canMove at hcan
  rw [hf, ht] at hcan
  simp only [] at hcan
  split_ifs at hcan with h1 h2 h3
  push_neg at h1 h2 h3
  have := of_decide_eq_true hcan
  exact ⟨h1.1, by omega, by simpa using h2.1, by simpa using h2.2, h3.1, h3.2,
    this⟩

/-- `reinforce` keeps cells bounded. -/
theorem reinforce_bounded (s : GameState) (cellId : Int)
    (h : cellsBounded s.cells) : cellsBounded (reinforce s cellId).cells := by
  unfold reinforce
  split_ifs with hcan
  · refine cellsBounded_map (fun c hc => ?_)
    have hcb := h c hc
    split_ifs <;> (try simp) <;> omega
  · exact h

/-- `reinforce` keeps the id list. -/
theorem reinforce_ids (s : GameState) (cellId : Int) :
    ((reinforce s cellId).cells).map Cell.id = s.cells.map Cell.id := by
  unfold reinforce
  split_ifs with hcan
  · exact map_ids_eq (fun c => by split_ifs <;> rfl) _
  · rfl

/-- `attack` keeps cells bounded on every path. -/
theorem attack_bounded (stream : Nat → Rat) (s : GameState) (fromId toId : Int)
    (h : cellsBounded s.cells) :
    cellsBounded ((attack stream s fromId toId).state).cells := by
  unfold attack
  split_ifs with hcan
  · split
    next fc tc hf ht =>
      have hfcb := h fc (find_mem hf)
      have htcb := h tc (find_mem ht)
      dsimp only
      split_ifs with h0 hwin <;>
        refine cellsBounded_map (fun c hc => ?_) <;>
        have hcb := h c hc <;>
        split_ifs <;> (try simp) <;> omega
    next hne => exact h
  · exact h

/-- `attack` keeps the id list. -/
theorem attack_ids (stream : Nat → Rat) (s : GameState) (fromId toId : Int) :
    (((attack stream s fromId toId).state).cells).map Cell.id =
      s.cells.map Cell.id := by
  unfold attack
  split_ifs with hcan
  · split
    next fc tc hf ht =>
      dsimp only
      split_ifs with h0 hwin <;>
        exact map_ids_eq (fun c => by split_ifs <;> rfl) _
    next hne => rfl
  · rfl

/-- `move` keeps cells bounded.  The id-uniqueness hypothesis pins the
updated cells down to the two cells the validation looked at. -/
theorem move_bounded (s : GameState) (fromId toId unitCount : Int)
    (h : cellsBounded s.cells) (hids : idsNodup s.cells) :
    cellsBounded (move s fromId toId unitCount).cells := by
  unfold move
  split_ifs with hcan
  · split
    next fc tc hf ht =>
      obtain ⟨-, -, -, -, -, -, hu⟩ := canMove_spec hf ht hcan
      have hfcb := h fc (find_mem hf)
      have htcb := h tc (find_mem ht)
      dsimp only
      split_ifs with hfm
      · exact h
      · refine cellsBounded_map (fun c hc => ?_)
        have hcb := h c hc
        split_ifs with hid1 hid2
        · have hceq : c = fc := mem_id_unique hids hc (find_mem hf)
            (by rw [find_id_eq hf]; simpa using hid1)
          rw [hceq]
          simp
          omega
        · have hceq : c = tc := mem_id_unique hids hc (find_mem ht)
            (by rw [find_id_eq ht]; simpa using hid2)
          rw [hceq]
          simp
          omega
        · exact hcb
    next hne => exact h
  · exact h

/-- `move` keeps the id list. -/
theorem move_ids (s : GameState) (fromId toId unitCount : Int) :
    ((move s fromId toId unitCount).cells).map Cell.id =
      s.cells.map Cell.id := by
  unfold move
  split_ifs with hcan
  · split
    next fc tc hf ht =>
      dsimp only
      split_ifs with hfm
      · rfl
      · exact map_ids_eq (fun c => by split_ifs <;> rfl) _
    next hne => rfl
  · rfl

/-- `endTurn` never touches the cells. -/
theorem endTurn_cells (s : GameState) : (endTurn s).cells = s.cells := by
  unfold endTurn
  split_ifs <;> rfl

/-- Reachable game states: a state whose cells come from a successful
territory split of a generated cell list, closed under the four action entry
points (with arbitrary arguments and dice streams). -/
inductive Reachable : GameState → Prop where
  | init (hexes : List Hex) (config : SplitConfig) (rng : Rng) (fuel : Nat)
      (out : List Cell) (s : GameState) :
      splitTerritory (generateCells hexes) config rng fuel = Except.ok out →
      s.cells = out → Reachable s
  | reinforceStep (s : GameState) (cellId : Int) :
      Reachable s → Reachable (reinforce s cellId)
  | attackStep (stream : Nat → Rat) (s : GameState) (fromId toId : Int) :
      Reachable s → Reachable ((attack stream s fromId toId).state)
  | moveStep (s : GameState) (fromId toId unitCount : Int) :
      Reachable s → Reachable (move s fromId toId unitCount)
  | endTurnStep (s : GameState) : Reachable s → Reachable (endTurn s)

/-- The joint invariant carried by the reachability induction: unit bounds
plus pairwise-distinct cell ids (needed for the `move` case). -/
theorem reachable_invariant (s : GameState) (h : Reachable s) :
    cellsBounded s.cells ∧ idsNodup s.cells := by
  induction h with
  | init hexes config rng fuel out s hok hcells =>
    constructor
    · rw [hcells]
      exact splitTerritory_bounded hok (generateCells_bounded hexes)
    · show (s.cells.map Cell.id).Nodup
      rw [hcells, splitTerritory_ids hok]
      exact generateCells_idsNodup hexes
  | reinforceStep s cellId _ ih =>
    exact ⟨reinforce_bounded s cellId ih.1,
      show _ by unfold idsNodup; rw [reinforce_ids]; exact ih.2⟩
  | attackStep stream s fromId toId _ ih =>
    exact ⟨attack_bounded stream s fromId toId ih.1,
      show _ by unfold idsNodup; rw [attack_ids]; exact ih.2⟩
  | moveStep s fromId toId unitCount _ ih =>
    exact ⟨move_bounded s fromId toId unitCount ih.1 ih.2,
      show _ by unfold idsNodup; rw [move_ids]; exact ih.2⟩
  | endTurnStep s _ ih =>
    exact ⟨show _ by rw [cellsBounded, endTurn_cells]; exact ih.1,
      show _ by unfold idsNodup; rw [endTurn_cells]; exact ih.2⟩

/-- Claim C4: on every reachable game state - an initial territory split of
generated cells, and anything the four entry points produce from there -
every cell's unit count lies in [0, 8]. -/
theorem reachable_units_bounded (s : GameState) (h : Reachable s) :
    cellsBounded s.cells :=
  (reachable_invariant s h).1

/-- Cells of a two-hex split used to witness C4. -/
def splitCellsW : List Cell :=
  match splitTerritory (generateCells [⟨0, 0⟩, ⟨1, 0⟩]) ⟨2, 1⟩
      ⟨fun _ => 0, 0⟩ 100 with
  | .ok out => out
  | .error _ => []

/-- A freshly split two-hex game state. -/
def splitState : GameState :=
  { cells := splitCellsW, players := [0, 1], current := 0,
    phase := Phase.reinforce, reinfLeft := 3, actionsLeft := 5,
    scores := fun _ => 0, round := 1, selected := none, winGoal := 10 }

/-- Witness for C4 at the concrete split state. -/
theorem reachable_units_bounded_witness : cellsBounded splitState.cells :=
  reachable_units_bounded splitState
    (Reachable.init [⟨0, 0⟩, ⟨1, 0⟩] ⟨2, 1⟩ ⟨fun _ => 0, 0⟩ 100 splitCellsW
      splitState (by with_unfolding_all rfl) rfl)

/-! ### Claim C8: connectivity of the generated landmass -/

/-- Hex adjacency is symmetric: the six direction offsets are closed under
negation. -/
theorem adj_symm {a b : Hex} (h : Adj a b) : Adj b a := by
  simp only [Adj, getNeighbors, hexDirections, List.map_cons, List.map_nil,
    List.mem_cons, List.not_mem_nil, or_false] at h ⊢
  rcases h with rfl | rfl | rfl | rfl | rfl | rfl <;>
    simp [Hex.mk.injEq]

/-- A step inside a hex set is symmetric. -/
theorem stepIn_symm {S : List Hex} {a b : Hex} (h : StepIn S a b) :
    StepIn S b a :=
  ⟨h.2.1, h.1, adj_symm h.2.2⟩

/-- Connectivity within a superset follows from connectivity in a subset. -/
theorem reachableIn_mono {S T : List Hex} (hsub : ∀ x ∈ S, x ∈ T) {a b : Hex}
    (h : ReachableIn S a b) : ReachableIn T a b := by
  induction h with
  | refl => exact Relation.ReflTransGen.refl
  | tail _ hstep ih =>
    exact ih.tail ⟨hsub _ hstep.1, hsub _ hstep.2.1, hstep.2.2⟩

/-- Connectivity within a set is symmetric. -/
theorem reachableIn_symm {S : List Hex} {a b : Hex} (h : ReachableIn S a b) :
    ReachableIn S b a :=
  Relation.ReflTransGen.symmetric (fun _ _ hs => stepIn_symm hs) h

/-- The six neighbours of a hex are pairwise distinct. -/
theorem getNeighbors_nodup (h : Hex) : (getNeighbors h).Nodup := by
  refine List.Nodup.map ?_ (by decide)
  intro d e heq
  cases d
  cases e
  simp only [Hex.mk.injEq] at heq ⊢
  omega

/-- Soundness of the breadth-first flood-fill loop: with fuel at least
`7 * (unvisited hexes) + queue length` the queue drains; everything queued
ends up in the produced component, and every member of the component is
connected to `start` inside the component.  (Each step pops one queue entry
and marks at most six fresh hexes visited, so the measure drops.) -/
theorem floodFillBfs_sound (hexSet : List Hex) (start : Hex) :
    ∀ (fuel : Nat) (queue visited component : List Hex),
      7 * (hexSet.toFinset.card -
        (hexSet.toFinset ∩ visited.toFinset).card) + queue.length ≤ fuel →
      (∀ x ∈ component ++ queue, ReachableIn (component ++ queue) start x) →
      (∀ x ∈ component ++ queue,
        x ∈ (floodFillBfs hexSet fuel queue visited component).1) ∧
      (∀ x ∈ (floodFillBfs hexSet fuel queue visited component).1,
        ReachableIn ((floodFillBfs hexSet fuel queue visited component).1)
          start x) := by
  intro fuel
  induction fuel with
  | zero =>
    intro queue visited component hfuel hreach
    have hq : queue = [] := List.eq_nil_of_length_eq_zero (by omega)
    subst hq
    simp only [floodFillBfs]
    exact ⟨fun x hx => by simpa using hx,
      fun x hx => by simpa using hreach x (by simpa using hx)⟩
  | succ n ih =>
    intro queue visited component hfuel hreach
    cases queue with
    | nil =>
      simp only [floodFillBfs]
      exact ⟨fun x hx => by simpa using hx,
        fun x hx => by simpa using hreach x (by simpa using hx)⟩
    | cons current rest =>
      simp only [floodFillBfs]
      set fresh := (getNeighbors current).filter
        (fun m => !(visited.contains m) && hexSet.contains m) with hfresh
      have hfreshsub : ∀ x ∈ fresh, x ∈ hexSet := by
        intro x hx
        have hc := (List.mem_filter.mp hx).2
        simp only [Bool.and_eq_true, List.contains_eq_any_beq, List.any_eq_true,
          beq_iff_eq] at hc
        obtain ⟨y, hy, rfl⟩ := hc.2
        exact hy
      have hfreshvis : ∀ x ∈ fresh, x ∉ visited := by
        intro x hx hmem
        have hc := (List.mem_filter.mp hx).2
        simp only [Bool.and_eq_true, Bool.not_eq_true'] at hc
        have hcontains : visited.contains x = true := by
          simp only [List.contains_eq_any_beq, List.any_eq_true, beq_iff_eq]
          exact ⟨x, hmem, rfl⟩
        rw [hcontains] at hc
        exact absurd hc.1 (by simp)
      have hfreshnd : fresh.Nodup := (getNeighbors_nodup current).filter _
      have hfreshadj : ∀ x ∈ fresh, Adj current x :=
        fun x hx => (List.mem_filter.mp hx).1
      have hsubF : fresh.toFinset ⊆ hexSet.toFinset := fun x hx =>
        List.mem_toFinset.mpr (hfreshsub x (List.mem_toFinset.mp hx))
      have hdisj : Disjoint (hexSet.toFinset ∩ visited.toFinset)
          fresh.toFinset := by
        rw [Finset.disjoint_right]
        intro x hxf hxi
        exact hfreshvis x (List.mem_toFinset.mp hxf)
          (List.mem_toFinset.mp (Finset.mem_inter.mp hxi).2)
      have hcard : (hexSet.toFinset ∩ (visited ++ fresh).toFinset).card =
          (hexSet.toFinset ∩ visited.toFinset).card + fresh.length := by
        rw [List.toFinset_append, Finset.inter_union_distrib_left,
          Finset.inter_eq_right.mpr hsubF,
          Finset.card_union_of_disjoint hdisj,
          List.toFinset_card_of_nodup hfreshnd]
      have hle : (hexSet.toFinset ∩ visited.toFinset).card + fresh.length ≤
          hexSet.toFinset.card := by
        rw [← hcard]
        exact Finset.card_le_card Finset.inter_subset_left
      have hfuel' : 7 * (hexSet.toFinset.card -
          (hexSet.toFinset ∩ (visited ++ fresh).toFinset).card) +
          (rest ++ fresh).length ≤ n := by
        rw [hcard, List.length_append]
        simp only [List.length_cons] at hfuel
        omega
      have hsubA : ∀ x ∈ component ++ current :: rest,
          x ∈ (component ++ [current]) ++ (rest ++ fresh) := by
        intro x hx
        simp only [List.mem_append, List.mem_cons, List.mem_singleton] at hx ⊢
        tauto
      have hreach' : ∀ x ∈ (component ++ [current]) ++ (rest ++ fresh),
          ReachableIn ((component ++ [current]) ++ (rest ++ fresh)) start x := by
        intro x hx
        have hx' : (x ∈ component ++ current :: rest) ∨ x ∈ fresh := by
          simp only [List.mem_append, List.mem_cons, List.mem_singleton] at hx ⊢
          tauto
        rcases hx' with hx' | hx'
        · exact reachableIn_mono hsubA (hreach x hx')
        · have hcur : ReachableIn ((component ++ [current]) ++ (rest ++ fresh))
              start current :=
            reachableIn_mono hsubA (hreach current (by simp))
          exact hcur.tail ⟨by simp, by simp [hx'], hfreshadj x hx'⟩
      have main := ih (rest ++ fresh) (visited ++ fresh)
        (component ++ [current]) hfuel' hreach'
      exact ⟨fun x hx => main.1 x (hsubA x hx), main.2⟩

/-- A flood fill started on an unvisited hex with the fuel used by
`getLargestComponent` produces a component that contains its start and is
internally connected. -/
theorem floodFill_sound (start : Hex) (hexSet visited : List Hex) (fuel : Nat)
    (hfuel : 7 * hexSet.toFinset.card + 1 ≤ fuel)
    (hstart : ¬ start ∈ visited) :
    start ∈ (floodFill start hexSet visited fuel).1 ∧
    ∀ a ∈ (floodFill start hexSet visited fuel).1,
      ∀ b ∈ (floodFill start hexSet visited fuel).1,
        ReachableIn ((floodFill start hexSet visited fuel).1) a b := by
  have hstartc : (visited.contains start) = false := by
    simp only [List.contains_eq_any_beq, List.any_eq_false, beq_iff_eq]
    intro y hy heq
    exact hstart (heq ▸ hy)
  have hmain := floodFillBfs_sound hexSet start fuel [start]
    (visited ++ [start]) []
    (by
      have h1 : (hexSet.toFinset ∩ (visited ++ [start]).toFinset).card ≤
          hexSet.toFinset.card :=
        Finset.card_le_card Finset.inter_subset_left
      simp only [List.length_cons, List.length_nil]
      omega)
    (by
      intro x hx
      simp only [List.nil_append, List.mem_singleton] at hx
      subst hx
      exact Relation.ReflTransGen.refl)
  unfold floodFill
  rw [if_neg (by simpa using hstart)]
  exact ⟨hmain.1 start (by simp),
    fun a ha b hb =>
      (reachableIn_symm (hmain.2 a ha)).trans (hmain.2 b hb)⟩

/-- A `foldl` invariant. -/
theorem foldl_pres {α β : Type} (P : β → Prop) (f : β → α → β) (l : List α)
    (hstep : ∀ b a, P b → P (f b a)) :
    ∀ b : β, P b → P (l.foldl f b) := by
  induction l with
  | nil => exact fun b hb => hb
  | cons a as ih => exact fun b hb => ih _ (hstep b a hb)

/-- Each `getLargestComponent` step keeps the best component empty or
nonempty-and-connected. -/
theorem getLargestComponentStep_pres (hexes : List Hex)
    (acc : List Hex × List Hex) (hex : Hex)
    (hP : acc.2 = [] ∨ formsOneComponent acc.2) :
    (getLargestComponentStep hexes acc hex).2 = [] ∨
      formsOneComponent ((getLargestComponentStep hexes acc hex).2) := by
  obtain ⟨visited, largest⟩ := acc
  unfold getLargestComponentStep
  dsimp only
  split_ifs with hcont hlen
  · exact hP
  · right
    have hstart : ¬ hex ∈ visited := by
      intro hmem
      apply hcont
      simp only [List.contains_eq_any_beq, List.any_eq_true, beq_iff_eq]
      exact ⟨hex, hmem, rfl⟩
    have hs := floodFill_sound hex hexes visited (7 * hexes.length + 1)
      (by have := List.toFinset_card_le (l := hexes); omega) hstart
    exact ⟨List.ne_nil_of_mem hs.1, hs.2⟩
  · exact hP

/-- A nonempty result of `getLargestComponent` is one of the flood-fill
components, hence nonempty and internally connected. -/
theorem getLargestComponent_connected (hexes : List Hex)
    (hne : getLargestComponent hexes ≠ []) :
    formsOneComponent (getLargestComponent hexes) := by
  have h := foldl_pres
    (fun acc : List Hex × List Hex => acc.2 = [] ∨ formsOneComponent acc.2)
    (getLargestComponentStep hexes) hexes
    (fun b a hb => getLargestComponentStep_pres hexes b a hb) ([], [])
    (Or.inl rfl)
  unfold getLargestComponent at hne ⊢
  rcases h with hc | hc
  · exact absurd hc hne
  · exact hc

/-- Claim C8 (amended): whenever `generateLandmass` returns a nonempty hex
list, that list forms exactly one connected component under 6-neighbour
adjacency (the returned list is the largest flood-fill component of the
smoothed land map). -/
theorem generateLandmass_connected (config : MapConfig) (rng : Rng)
    (hne : generateLandmass config rng ≠ []) :
    formsOneComponent (generateLandmass config rng) := by
  unfold generateLandmass at hne ⊢
  exact getLargestComponent_connected _ hne

/-- Counterexample to C8 as stated: with width and height 1, one smoothing
pass and an all-zero random stream, both blobs degenerate to the single hex
(-1,-1), the tendrils add nothing (the 70% placement check fails on 0), and
smoothing removes the isolated hex: the returned landmass is empty, hence
does not form exactly one connected component. -/
theorem generateLandmass_empty :
    generateLandmass ⟨1, 1, 1⟩ ⟨fun _ => 0, 0⟩ = [] ∧
    ¬ formsOneComponent (generateLandmass ⟨1, 1, 1⟩ ⟨fun _ => 0, 0⟩) := by
  have h : generateLandmass ⟨1, 1, 1⟩ ⟨fun _ => 0, 0⟩ = [] := by
    with_unfolding_all decide
  exact ⟨h, fun hcomp => hcomp.1 h⟩

/-- Witness for C8 (amended): without smoothing the same configuration keeps
the blob centre, and the nonempty result is connected. -/
theorem generateLandmass_connected_witness :
    formsOneComponent (generateLandmass ⟨1, 1, 0⟩ ⟨fun _ => 0, 0⟩) :=
  generateLandmass_connected ⟨1, 1, 0⟩ ⟨fun _ => 0, 0⟩
    (by with_unfolding_all decide)

end Exclave
